import Mathlib

/-!
Verification of the NeuroMitaPromptEditor syntax-highlighting core.

The development shallowly embeds the two tokenization engines of the
repository:

* the batch "paint and consolidate" engine of
  `frontend/src/syntax/highlighter.js` (`generateHighlightedTokens`),
  driven by the shared rule table of `frontend/src/syntax/syntaxStyles.js`
  (`highlightingRules`), and
* the incremental CodeMirror stream engine defined in the
  `createDslStreamLanguage` / `getDslRules` portion of `frontend/src/App.js`.

Lines are `List Char`.  Each JavaScript regular expression of the rule
tables is embedded as an anchored matcher that reports the length of the
match starting exactly at the cursor (plus the link capture group where the
rule has one); the global-`exec` scan of the batch engine and the
`stream.match` anchoring of CodeMirror are reproduced on top of these
matchers.  The stream engine matches against `string.slice(pos)`, so its
leading word-boundary assertions never see the character before the cursor;
the matchers take that flag explicitly.
-/

namespace PromptEditor

/-- Style-category keys of `editorThemes.dark` in `syntaxStyles.js`,
with the stream engine's token names mapped through
`dslHighlightStyleObject` to the same categories. -/
inductive StyleKey where
  | Default
  | Keyword
  | PlaceholderLink
  | Comment
  | String
  | Number
  | SpecialTag
  | LoadCommand
  | SectionMarker
  | Insert
  | TripleQuoteString
deriving DecidableEq, Repr

/-- Per-character paint state of the batch engine
(the elements of the `paint` array in `generateHighlightedTokens`). -/
structure Paint where
  styleKey : StyleKey
  isLink : Bool
  linkData : Option (List Char)
deriving DecidableEq, Repr

/-- A styled token run emitted by the batch engine.  The JavaScript token
stores `className = currentTheme[styleKey].className`, a bijective image of
the style key; the embedding keeps the key itself. -/
structure Token where
  text : List Char
  styleKey : StyleKey
  isLink : Bool
  linkData : Option (List Char)
deriving DecidableEq, Repr

/-- Result of an anchored regex match: length of `match[0]` together with
the optional link capture group. -/
structure MatchRes where
  len : Nat
  cap : Option (List Char)
deriving DecidableEq, Repr

/-- An anchored matcher: given whether the character just before the cursor
is a word character (for leading `\b`) and the suffix of the line starting
at the cursor, return the match result if the regex matches exactly there. -/
def Matcher : Type := Bool → List Char → Option MatchRes

/-- JavaScript `\w`: ASCII letters, digits and underscore. -/
def isWordChar (c : Char) : Bool := c.isAlphanum || c = '_'

/-- The case-sensitive character class `[A-Z0-9_]` of the batch `insert_tag`
rule. -/
def isUpperWordChar (c : Char) : Bool :=
  ('A' ≤ c && c ≤ 'Z') || c.isDigit || c = '_'

/-- JavaScript `\s` (whitespace, including the Unicode space separators). -/
def jsSpace (c : Char) : Bool :=
  let n := c.toNat
  n = 9 || n = 10 || n = 11 || n = 12 || n = 13 || n = 32 || n = 160 ||
  n = 5760 || (8192 ≤ n && n ≤ 8202) || n = 8232 || n = 8233 ||
  n = 8239 || n = 8287 || n = 12288 || n = 65279

/-- Length of the maximal prefix of `l` whose characters satisfy `p`
(the greedy run of a character class). -/
def takeLen (p : Char → Bool) : List Char → Nat
  | [] => 0
  | c :: rest => if p c then takeLen p rest + 1 else 0

/-- Index of the first occurrence of `t`, if any. -/
def findChar (t : Char) : List Char → Option Nat
  | [] => none
  | c :: rest => if c = t then some 0 else (findChar t rest).map (· + 1)

/-- Case-insensitive literal prefix test (the `i` flag on ASCII letters). -/
def startsWithCI : List Char → List Char → Bool
  | [], _ => true
  | _ :: _, [] => false
  | p :: ps, c :: cs => p.toUpper = c.toUpper && startsWithCI ps cs

/-- Rule `comment`: `/\/\/[^\n]*/g` — `//` to end of line
(split lines contain no newline, so `[^\n]*` takes the whole remainder). -/
def commentMatch : Matcher := fun _ s =>
  match s with
  | '/' :: '/' :: rest => some ⟨rest.length + 2, none⟩
  | _ => none

/-- Rule `single_double_quote_string`: `/(".*?"|'.*?')/g` — a non-greedy
single- or double-quoted run, closing at the first matching quote. -/
def stringMatch : Matcher := fun _ s =>
  match s with
  | '"' :: rest => (findChar '"' rest).map fun j => ⟨j + 2, none⟩
  | '\'' :: rest => (findChar '\'' rest).map fun j => ⟨j + 2, none⟩
  | _ => none

/-- Whole-word case-insensitive keyword alternation `\b(W1|...|Wn)\b` with
the `i` flag: because of the trailing `\b`, a keyword matches at a position
iff the maximal `\w`-run there, uppercased, is in the set. -/
def keywordMatchWith (kws : List (List Char)) : Matcher := fun prevW s =>
  if prevW then none
  else
    let k := takeLen isWordChar s
    if 0 < k && (s.take k).map Char.toUpper ∈ kws then some ⟨k, none⟩ else none

/-- The keyword set of `DSL_KEYWORDS_PATTERN` in `syntaxStyles.js`
(used by the batch `dsl_keywords` rule); it contains `LOAD`. -/
def batchKeywords : List (List Char) :=
  ["IF", "THEN", "ELSEIF", "ELSE", "ENDIF", "SET", "RETURN", "LOAD",
   "LOG", "AND", "OR", "TRUE", "FALSE", "NONE"].map String.toList

/-- The keyword set of `DSL_KEYWORDS_PATTERN_STR` in `App.js`
(used by the stream `dslKeyword` rule); it does not contain `LOAD`. -/
def streamKeywords : List (List Char) :=
  ["IF", "THEN", "ELSEIF", "ELSE", "ENDIF", "SET", "RETURN",
   "LOG", "AND", "OR", "TRUE", "FALSE", "NONE"].map String.toList

/-- Batch rule `dsl_keywords`: `\b(IF|...|LOAD|...)\b` with flags `gi`. -/
def batchKeywordMatch : Matcher := keywordMatchWith batchKeywords

/-- Stream rule `dslKeyword`: the same shape without `LOAD`, flag `i`. -/
def streamKeywordMatch : Matcher := keywordMatchWith streamKeywords

/-- Stream rule `txtLoad`: `\b(LOAD)\b` with flag `i`
(`TXT_SPECIFIC_COMMANDS_PATTERN_STR`), used only for template files. -/
def txtLoadMatch : Matcher := keywordMatchWith ["LOAD".toList]

/-- Rule `special_tag`: `/<[/!]?[a-zA-Z_][^>]*>/g` — `<`, an optional `/` or
`!`, a letter or underscore, then everything up to the next `>`. -/
def specialTagMatch : Matcher := fun _ s =>
  match s with
  | '<' :: rest =>
    let or' : Nat × List Char :=
      match rest with
      | c :: cs => if c = '/' || c = '!' then (1, cs) else (0, rest)
      | [] => (0, rest)
    match or'.2 with
    | c :: cs =>
      if c.isAlpha || c = '_' then
        (findChar '>' cs).map fun j => ⟨1 + or'.1 + 1 + j + 1, none⟩
      else none
    | [] => none
  | _ => none

/-- Trailing word-boundary test `\b` after a match: end of line or a
non-word character next. -/
def boundaryAfter : List Char → Bool
  | [] => true
  | c :: _ => !isWordChar c

/-- Rule `number`: `/\b\d+(\.\d+)?\b/g`.  The greedy integer part is the
maximal digit run; if a `.`-digits group follows but its trailing `\b`
fails, the engine backtracks to the bare integer, whose trailing boundary
at the `.` always holds. -/
def numberMatch : Matcher := fun prevW s =>
  if prevW then none
  else
    let k := takeLen Char.isDigit s
    if k = 0 then none
    else
      match s.drop k with
      | '.' :: rest2 =>
        let m := takeLen Char.isDigit rest2
        if 0 < m && boundaryAfter (rest2.drop m) then some ⟨k + 1 + m, none⟩
        else some ⟨k, none⟩
      | rest => if boundaryAfter rest then some ⟨k, none⟩ else none

/-- After the lazy body of the placeholder rule, check for
`\.(?:script|txt)>\]`; returns the consumed length (from the `.`) and the
`.extension` characters for the capture. -/
def extCheck : List Char → Option (Nat × List Char)
  | '.' :: rest =>
    if rest.take 8 = "script>]".toList then some (9, ".script".toList)
    else if rest.take 5 = "txt>]".toList then some (6, ".txt".toList)
    else none
  | _ => none

/-- Lazy scan for the `[^\]>]+?` body of the placeholder rule: grow the
body one character at a time (shortest first), checking for the extension
tail after each character. -/
def phScan (acc : List Char) : List Char → Option (Nat × List Char)
  | [] => none
  | c :: rest =>
    if c = ']' || c = '>' then none
    else
      match extCheck rest with
      | some (el, ext) => some (acc.length + 1 + el, acc ++ [c] ++ ext)
      | none => phScan (acc ++ [c]) rest

/-- Rule `placeholder_link`: `/(\[<)([^\]>]+?\.(?:script|txt))(>\])/g`,
capture group 2 is the path. -/
def placeholderMatch : Matcher := fun _ s =>
  match s with
  | '[' :: '<' :: rest => (phScan [] rest).map fun r => ⟨2 + r.1, some r.2⟩
  | _ => none

/-- Consume a non-empty greedy run of the character class `p` (a `X+`
atom): its length and the remaining suffix, or `none` if the run is
empty. -/
def reqRun (p : Char → Bool) (l : List Char) : Option (Nat × List Char) :=
  let n := takeLen p l
  if n = 0 then none else some (n, l.drop n)

/-- Consume a case-insensitive literal. -/
def reqCI (pat : List Char) (l : List Char) : Option (Nat × List Char) :=
  if startsWithCI pat l then some (pat.length, l.drop pat.length) else none

/-- Consume one `['"]` quote character. -/
def reqQuote : List Char → Option (Nat × List Char)
  | q :: r => if q = '\'' || q = '"' then some (1, r) else none
  | [] => none

/-- Rule `load_tag_from` (batch) and `loadCommand` (stream):
`/\bLOAD\s+[A-Z0-9_]+\s+FROM\s+['"][^'"]+['"]/i` — the whitespace and word
character classes are disjoint and `FROM` is followed by mandatory
whitespace, so every greedy run is forced maximal and the atoms chain
without backtracking. -/
def loadTagMatch : Matcher := fun prevW s =>
  if prevW then none
  else
    (reqCI ("LOAD".toList) s).bind fun p1 =>
    (reqRun jsSpace p1.2).bind fun p2 =>
    (reqRun isWordChar p2.2).bind fun p3 =>
    (reqRun jsSpace p3.2).bind fun p4 =>
    (reqCI ("FROM".toList) p4.2).bind fun p5 =>
    (reqRun jsSpace p5.2).bind fun p6 =>
    (reqQuote p6.2).bind fun p7 =>
    (reqRun (fun c => !(c = '\'' || c = '"')) p7.2).bind fun p8 =>
    (reqQuote p8.2).map fun p9 =>
      ⟨p1.1 + p2.1 + p3.1 + p4.1 + p5.1 + p6.1 + p7.1 + p8.1 + p9.1, none⟩

/-- Rule `section_marker`: `/\[(?:#|\/)\s*[A-Z0-9_]+\s*]/gi`. -/
def sectionMatch : Matcher := fun _ s =>
  match s with
  | '[' :: c :: rest =>
    if c = '#' || c = '/' then
      let s1 := takeLen jsSpace rest
      let r2 := rest.drop s1
      let k := takeLen isWordChar r2
      if k = 0 then none
      else
        let r3 := r2.drop k
        let s2 := takeLen jsSpace r3
        match r3.drop s2 with
        | ']' :: _ => some ⟨2 + s1 + k + s2 + 1, none⟩
        | _ => none
    else none
  | _ => none

/-- Core of the insert-tag rule `\{\{CLASS+\}\}` for a given inner
character class. -/
def insertMatchWith (cls : Char → Bool) : Matcher := fun _ s =>
  match s with
  | '{' :: '{' :: rest =>
    let k := takeLen cls rest
    if k = 0 then none
    else
      match rest.drop k with
      | '}' :: '}' :: _ => some ⟨2 + k + 2, none⟩
      | _ => none
  | _ => none

/-- Batch rule `insert_tag`: `/\{\{[A-Z0-9_]+\}\}/g` (case-sensitive). -/
def insertBatchMatch : Matcher := insertMatchWith isUpperWordChar

/-- Stream rule `insert`: `/\{\{[A-Z0-9_]+\}\}/i` (case-insensitive, so the
class also admits lowercase letters). -/
def insertStreamMatch : Matcher := insertMatchWith isWordChar

/-- A rule of the batch table `highlightingRules` in `syntaxStyles.js`. -/
structure Rule where
  styleKey : StyleKey
  matchAt : Matcher
  isLink : Bool
  hasLinkGroup : Bool
  isDslKeywordRule : Bool
  global : Bool

/-- The ordered batch rule table `highlightingRules` of `syntaxStyles.js`
(all its regexes carry the `g` flag). -/
def batchRules : List Rule :=
  [⟨.Comment, commentMatch, false, false, false, true⟩,
   ⟨.String, stringMatch, false, false, false, true⟩,
   ⟨.Keyword, batchKeywordMatch, false, false, true, true⟩,
   ⟨.SpecialTag, specialTagMatch, false, false, false, true⟩,
   ⟨.Number, numberMatch, false, false, false, true⟩,
   ⟨.PlaceholderLink, placeholderMatch, true, true, false, true⟩,
   ⟨.LoadCommand, loadTagMatch, false, false, true, true⟩,
   ⟨.SectionMarker, sectionMatch, false, false, false, true⟩,
   ⟨.Insert, insertBatchMatch, false, false, false, true⟩]

/-- Is the character before position `pos` of `line` a word character?
(The batch engine matches against the whole line, so its `\b` assertions
see the real previous character.) -/
def prevIsWordAt (line : List Char) : Nat → Bool
  | 0 => false
  | p + 1 =>
    match line.get? p with
    | some c => isWordChar c
    | none => false

/-- The successive-match scan of a global regex via repeated `exec`: find
the leftmost match at or after the cursor, record it, continue after it.
Fuel bounds the number of iterations; `line.length + 1` always suffices
because every step advances the position. -/
def scanAllAux (m : Matcher) (line : List Char) : Nat → Nat → List (Nat × MatchRes)
  | 0, _ => []
  | fuel + 1, pos =>
    if pos < line.length then
      match m (prevIsWordAt line pos) (line.drop pos) with
      | some res => (pos, res) :: scanAllAux m line fuel (pos + res.len)
      | none => scanAllAux m line fuel (pos + 1)
    else []

/-- All matches of a rule on a line, scanning from `start`
(`rule.regex.lastIndex` is reset to 0 beforehand for global regexes). -/
def scanRuleSt (r : Rule) (li : Nat) (line : List Char) : List (Nat × MatchRes) :=
  scanAllAux r.matchAt line (line.length + 1) (if r.global then 0 else li)

/-- Overwrite the paint of positions `s ≤ i < e` with `v`
(one pass of `for (let i = start; i < end; i++) paint[i] = ...`). -/
def setRange (p : Nat → Paint) (s e : Nat) (v : Paint) : Nat → Paint :=
  fun i => if s ≤ i && i < e then v else p i

/-- The paint a rule writes for one match, embodying
`linkData: rule.isLink && rule.linkGroup && match[rule.linkGroup]
 ? match[rule.linkGroup] : (rule.isLink ? match[0] : undefined)`. -/
def paintFor (r : Rule) (res : MatchRes) (text : List Char) : Paint :=
  ⟨r.styleKey, r.isLink,
   if r.isLink then
     some (match (if r.hasLinkGroup then res.cap else none) with
           | some c => if c = [] then text else c
           | none => text)
   else none⟩

/-- Paint every match of one rule over the line, in scan order. -/
def applyMatches (line : List Char) (r : Rule) :
    List (Nat × MatchRes) → (Nat → Paint) → (Nat → Paint)
  | [], p => p
  | (pos, res) :: ms, p =>
    applyMatches line r ms
      (setRange p pos (pos + res.len) (paintFor r res ((line.drop pos).take res.len)))

/-- Step 1 of the batch engine: apply the rules in table order, skipping
DSL-keyword rules for template files, threading each global regex's
`lastIndex` (reset to 0 before each scan, left at 0 by the final failing
`exec`; a skipped rule's cursor is untouched). -/
def applyRulesSt (isTxt : Bool) (line : List Char) :
    List Rule → List Nat → (Nat → Paint) → ((Nat → Paint) × List Nat)
  | [], _, p => (p, [])
  | r :: rs, lis, p =>
    let li := lis.headD 0
    if isTxt && r.isDslKeywordRule then
      let rec' := applyRulesSt isTxt line rs lis.tail p
      (rec'.1, li :: rec'.2)
    else
      let rec' := applyRulesSt isTxt line rs lis.tail
        (applyMatches line r (scanRuleSt r li line) p)
      (rec'.1, 0 :: rec'.2)

/-- Does the suffix start with two `"` characters (the tail of the
three-character marker)? -/
def atTwo : List Char → Bool
  | '"' :: '"' :: _ => true
  | _ => false

/-- Does the suffix start with the three-character marker `"""`? -/
def atMarker : List Char → Bool
  | [] => false
  | c :: rest => c = '"' && atTwo rest

/-- Position of the first occurrence of the three-character marker `"""`
in a suffix. -/
def firstMarker : List Char → Option Nat
  | [] => none
  | c :: rest =>
    if atMarker (c :: rest) then some 0 else (firstMarker rest).map (· + 1)

/-- `lineText.indexOf(TRIPLE_QUOTE_MARKER, i)`. -/
def markerFrom (line : List Char) (i : Nat) : Option Nat :=
  (firstMarker (line.drop i)).map (· + i)

/-- The paint the triple-quote pass writes:
`{ styleKey: TRIPLE_QUOTE_STYLE_KEY, isLink: false }`. -/
def triplePaint : Paint := ⟨.TripleQuoteString, false, none⟩

/-- Step 2 of the batch engine: the triple-quote override walk over the
line, mirroring the `while (searchOffset < lineText.length)` loop of
`generateHighlightedTokens`.  Fuel `line.length + 2` suffices: every
iteration either jumps to the end of the line or advances by at least 3. -/
def triplePassAux (line : List Char) : Nat → Bool → Nat → (Nat → Paint) →
    ((Nat → Paint) × Bool)
  | 0, inT, _, p => (p, inT)
  | fuel + 1, inT, off, p =>
    if off < line.length then
      match markerFrom line off, inT with
      | some i, true =>
        triplePassAux line fuel false (i + 3) (setRange p off (i + 3) triplePaint)
      | none, true =>
        triplePassAux line fuel true line.length
          (setRange p off line.length triplePaint)
      | some i, false =>
        (match markerFrom line (i + 3) with
         | some j =>
           triplePassAux line fuel false (j + 3) (setRange p i (j + 3) triplePaint)
         | none =>
           triplePassAux line fuel true line.length
             (setRange p i line.length triplePaint))
      | none, false => triplePassAux line fuel false line.length p
    else (p, inT)

/-- The full triple-quote pass with its incoming carried state. -/
def triplePass (line : List Char) (inT : Bool) (p : Nat → Paint) :
    (Nat → Paint) × Bool :=
  triplePassAux line (line.length + 2) inT 0 p

/-- Step 3 of the batch engine: consolidate the per-character paint into
token runs by merging consecutive characters with equal paint. -/
def consolidateAux (p : Nat → Paint) : List Char → Nat → List Char → Paint →
    List Token
  | [], _, acc, cur => [⟨acc, cur.styleKey, cur.isLink, cur.linkData⟩]
  | c :: rest, i, acc, cur =>
    if p i = cur then consolidateAux p rest (i + 1) (acc ++ [c]) cur
    else
      ⟨acc, cur.styleKey, cur.isLink, cur.linkData⟩ ::
        consolidateAux p rest (i + 1) [c] (p i)

/-- Consolidation entry point for a non-empty line. -/
def consolidate (line : List Char) (p : Nat → Paint) : List Token :=
  match line with
  | [] => []
  | c :: rest => consolidateAux p rest 1 [c] (p 0)

/-- The paint every cell of the line starts from. -/
def defaultPaint : Paint := ⟨.Default, false, none⟩

/-- One full line of the batch engine, threading the global-regex cursors:
paint by rules, run the triple-quote pass, consolidate.  Returns the token
run, the outgoing `inTripleQuote` state, and the outgoing regex cursors. -/
def highlightLineSt (line : List Char) (st : Bool) (isTxt : Bool)
    (lis : List Nat) : (List Token × Bool) × List Nat :=
  let rp := applyRulesSt isTxt line batchRules lis (fun _ => defaultPaint)
  let tp := triplePass line st rp.1
  let tokens :=
    match line with
    | [] => [⟨[], .Default, false, none⟩]
    | _ => consolidate line tp.1
  ((tokens, tp.2), rp.2)

/-- `tokenizeLine` of the specification: the batch engine on one line with
the regex cursors in their startup state. -/
def highlightLine (line : List Char) (st : Bool) (isTxt : Bool) :
    List Token × Bool :=
  (highlightLineSt line st isTxt (List.replicate batchRules.length 0)).1

/-- The per-line loop of `generateHighlightedTokens`, carrying the
triple-quote state and the regex cursors from line to line. -/
def highlightLinesSt (isTxt : Bool) :
    List (List Char) → Bool → List Nat → List (List Token)
  | [], _, _ => []
  | l :: ls, st, lis =>
    let r := highlightLineSt l st isTxt lis
    r.1.1 :: highlightLinesSt isTxt ls r.1.2 r.2

/-- `generateHighlightedTokens(fullText, isTxtFile)` with explicit incoming
regex-cursor state: split on newlines, tokenize each line in sequence
starting outside any triple quote. -/
def generateHighlightedTokensSt (fullText : List Char) (isTxt : Bool)
    (lis : List Nat) : List (List Token) :=
  highlightLinesSt isTxt (fullText.splitOn '\n') false lis

/-- `generateHighlightedTokens(fullText, isTxtFile)` as the app first runs
it: the module-level regex objects start with `lastIndex = 0`. -/
def generateHighlightedTokens (fullText : List Char) (isTxt : Bool) :
    List (List Token) :=
  generateHighlightedTokensSt fullText isTxt (List.replicate batchRules.length 0)

/-- A rule of the stream engine's table (`getDslRules` in `App.js`); its
token name is mapped through `dslHighlightStyleObject` to the shared style
category. -/
structure StreamRule where
  styleKey : StyleKey
  matchAt : Matcher

/-- The ordered stream rule table built by `getDslRules(isTxtFile)`:
comment and string first, then the file-type dependent load/keyword rules,
then section marker, insert, special tag, placeholder link and number. -/
def streamRules (isTxt : Bool) : List StreamRule :=
  [⟨.Comment, commentMatch⟩, ⟨.String, stringMatch⟩] ++
  (if isTxt then [⟨.LoadCommand, txtLoadMatch⟩]
   else [⟨.LoadCommand, loadTagMatch⟩, ⟨.Keyword, streamKeywordMatch⟩]) ++
  [⟨.SectionMarker, sectionMatch⟩, ⟨.Insert, insertStreamMatch⟩,
   ⟨.SpecialTag, specialTagMatch⟩, ⟨.PlaceholderLink, placeholderMatch⟩,
   ⟨.Number, numberMatch⟩]

/-- Try the stream rules in table order at the cursor; CodeMirror's
`stream.match` tests the regex against `string.slice(pos)` and accepts
only a match at slice position 0, so leading `\b` assertions never see the
character before the cursor (`prevW := false`). -/
def tryRules : List StreamRule → List Char → Option (StyleKey × Nat)
  | [], _ => none
  | r :: rs, s =>
    match r.matchAt false s with
    | some res => some (r.styleKey, res.len)
    | none => tryRules rs s

/-- The in-triple-quote scan of the stream `token` function: consume
characters one by one, tracking backslash escapes; an unescaped `"`
followed by `""` closes the span.  Returns the number of characters
consumed and whether the marker closed the span. -/
def tripleScan : List Char → Bool → Nat × Bool
  | [], _ => (0, false)
  | c :: rest, escaped =>
    if !escaped && c = '"' then
      if atTwo rest then (3, true)
      else
        let r := tripleScan rest false
        (r.1 + 1, r.2)
    else
      let r := tripleScan rest (!escaped && c = '\\')
      (r.1 + 1, r.2)

/-- The stream engine's `token(stream, state)` step from
`createDslStreamLanguage` in `App.js`: returns the emitted style category
(`none` is CodeMirror's "no style"), the new cursor and the new
`inTripleQuote` state. -/
def streamToken (line : List Char) (pos : Nat) (inTriple : Bool)
    (isTxt : Bool) : Option StyleKey × Nat × Bool :=
  if inTriple then
    let r := tripleScan (line.drop pos) false
    (some .TripleQuoteString, pos + r.1, !r.2)
  else if atMarker (line.drop pos) then (some .TripleQuoteString, pos + 3, true)
  else
    match tryRules (streamRules isTxt) (line.drop pos) with
    | some kn => (some kn.1, pos + kn.2, false)
    | none =>
      ((if isTxt then some .Default else none),
       (if pos < line.length then pos + 1 else pos), false)

/-- Concatenation of the token texts of a run. -/
def joinTexts : List Token → List Char
  | [] => []
  | t :: ts => t.text ++ joinTexts ts

theorem joinTexts_consolidateAux (p : Nat → Paint) :
    ∀ (rest : List Char) (i : Nat) (acc : List Char) (cur : Paint),
    joinTexts (consolidateAux p rest i acc cur) = acc ++ rest := by
  intro rest
  induction rest with
  | nil => intro i acc cur; simp [consolidateAux, joinTexts]
  | cons c rest ih =>
    intro i acc cur
    by_cases h : p i = cur
    · simp [consolidateAux, h, ih, joinTexts]
    · simp [consolidateAux, h, ih, joinTexts]

/-- C1: for every input line, incoming triple-quote state and file-type
flag, the batch tokenizer's token run concatenates, in order, to exactly
the original line text — every character is covered by exactly one token
run, with no gaps and no overlaps.  The paint array assigns each index
exactly one style and consolidation walks the indices once in order, so
this holds whatever the rules and the triple-quote pass paint. -/
theorem batch_round_trip (line : List Char) (st isTxt : Bool) :
    joinTexts (highlightLine line st isTxt).1 = line := by
  cases line with
  | nil => rfl
  | cons c rest =>
    simp only [highlightLine, highlightLineSt, consolidate]
    exact joinTexts_consolidateAux _ rest 1 [c] _

/-- C9: for every incoming triple-quote state and file-type flag,
tokenizing the empty line yields exactly one token with empty text and the
`Default` style, and the carried state passes through unchanged. -/
theorem empty_line_token :
    ∀ st isTxt : Bool,
      highlightLine [] st isTxt = ([⟨[], .Default, false, none⟩], st) := by
  decide

/-- C2 counterexample: on the script line `SET x = "IF"` the batch engine
styles the inner `IF` as `Keyword`, not `String`.  In `highlightingRules`
the String rule is at index 1 and the Keyword rule at index 2, so the
Keyword rule is the later one and overwrites the String paint on the
overlapping range — the opposite of the claimed order. -/
theorem set_if_string_counterexample :
    Token.mk ("IF".toList) .String false none ∉
      (highlightLine ("SET x = \"IF\"".toList) false false).1 ∧
    Token.mk ("IF".toList) .Keyword false none ∈
      (highlightLine ("SET x = \"IF\"".toList) false false).1 := by
  decide

/-- C2 amended: tokenizing the script line `SET x = "IF"` with the batch
engine styles the inner `IF` as `Keyword`, not `String`, because the
Keyword rule is later in table order than the String rule and later rules
overwrite overlapping ranges of earlier ones. -/
theorem set_if_keyword_amended :
    (highlightLine ("SET x = \"IF\"".toList) false false).1 =
      [⟨"SET".toList, .Keyword, false, none⟩,
       ⟨" x = ".toList, .Default, false, none⟩,
       ⟨"\"".toList, .String, false, none⟩,
       ⟨"IF".toList, .Keyword, false, none⟩,
       ⟨"\"".toList, .String, false, none⟩] := by
  decide

/-- C4: tokenizing line 1 `foo \"\"\"bar` then line 2 `baz\"\"\" qux` in
sequence with the batch engine styles line 1's trailing `\"\"\"bar` and
line 2's leading `baz\"\"\"` as `TripleQuoteString`, leaves ` qux` outside
the span, and the carried `inTripleQuote` state is `true` after line 1 and
`false` after line 2. -/
theorem triple_quote_carry :
    generateHighlightedTokens (("foo \"\"\"bar" ++ "\n" ++ "baz\"\"\" qux").toList)
        false =
      [[⟨"foo ".toList, .Default, false, none⟩,
        ⟨"\"\"\"bar".toList, .TripleQuoteString, false, none⟩],
       [⟨"baz\"\"\"".toList, .TripleQuoteString, false, none⟩,
        ⟨" qux".toList, .Default, false, none⟩]] ∧
    (highlightLine ("foo \"\"\"bar".toList) false false).2 = true ∧
    (highlightLine ("baz\"\"\" qux".toList) true false).2 = false := by
  decide

/-- C8: tokenizing `LOAD "x.txt"` as a template file with the batch engine
does not apply the `LoadCommand` pattern-rule styling: both DSL-keyword
rules (`dsl_keywords` and `load_tag_from`) are skipped for template files,
so `LOAD ` stays `Default` and no token is `LoadCommand`-styled (there is
no simpler keyword-level rule in the batch table, so none applies).  The
last conjunct records for contrast that as a script file the line gets
`Keyword` on `LOAD` — the full `LoadCommand` pattern requires a
`NAME FROM` part and does not match this line even for scripts. -/
theorem load_template_gating :
    ((highlightLine ("LOAD \"x.txt\"".toList) false true).1 =
      [⟨"LOAD ".toList, .Default, false, none⟩,
       ⟨"\"x.txt\"".toList, .String, false, none⟩]) ∧
    (∀ t ∈ (highlightLine ("LOAD \"x.txt\"".toList) false true).1,
      t.styleKey ≠ .LoadCommand) ∧
    ((highlightLine ("LOAD \"x.txt\"".toList) false false).1 =
      [⟨"LOAD".toList, .Keyword, false, none⟩,
       ⟨" ".toList, .Default, false, none⟩,
       ⟨"\"x.txt\"".toList, .String, false, none⟩]) := by
  decide

/-- C3 counterexample: the two engines do not consult one shared ordered
rule table.  The batch Keyword pattern (`DSL_KEYWORDS_PATTERN`) matches
`LOAD` while the stream Keyword pattern (`DSL_KEYWORDS_PATTERN_STR`)
does not, and the category order the two script-file tables apply after
String differs. -/
theorem shared_table_counterexample :
    batchKeywordMatch false ("LOAD".toList) = some ⟨4, none⟩ ∧
    streamKeywordMatch false ("LOAD".toList) = none ∧
    batchRules.map Rule.styleKey ≠ (streamRules false).map StreamRule.styleKey := by
  decide

/-- C3 amended: each engine has its own ordered rule table.  Both tables
begin with the Comment and String rules in that order, and the two engines
use the same patterns for Comment, String, SpecialTag, Number,
PlaceholderLink, SectionMarker and the full script-file LoadCommand rule
(those matchers are shared definitions above); but the batch Keyword set
contains `LOAD` while the stream's does not, the Insert rule is
case-sensitive only in the batch table, template files get a bare-`LOAD`
LoadCommand rule only in the stream table, and after String the two
engines try the remaining categories in different orders. -/
theorem rule_tables_amended :
    batchRules.map Rule.styleKey =
      [.Comment, .String, .Keyword, .SpecialTag, .Number, .PlaceholderLink,
       .LoadCommand, .SectionMarker, .Insert] ∧
    (streamRules false).map StreamRule.styleKey =
      [.Comment, .String, .LoadCommand, .Keyword, .SectionMarker, .Insert,
       .SpecialTag, .PlaceholderLink, .Number] ∧
    (streamRules true).map StreamRule.styleKey =
      [.Comment, .String, .LoadCommand, .SectionMarker, .Insert,
       .SpecialTag, .PlaceholderLink, .Number] ∧
    batchKeywordMatch false ("LOAD".toList) = some ⟨4, none⟩ ∧
    streamKeywordMatch false ("LOAD".toList) = none ∧
    txtLoadMatch false ("LOAD".toList) = some ⟨4, none⟩ ∧
    insertStreamMatch false ('{' :: '{' :: 'a' :: '}' :: '}' :: []) =
      some ⟨5, none⟩ ∧
    insertBatchMatch false ('{' :: '{' :: 'a' :: '}' :: '}' :: []) = none := by
  decide

theorem tripleScan_no_backslash :
    ∀ l : List Char, '\\' ∉ l →
      tripleScan l false =
        (match firstMarker l with
         | some i => (i + 3, true)
         | none => (l.length, false)) := by
  intro l
  induction l with
  | nil => intro _; rfl
  | cons c rest ih =>
    intro h
    have hc : c ≠ '\\' := fun e => h (by simp [e])
    have hr : '\\' ∉ rest := fun m => h (List.mem_cons_of_mem _ m)
    simp only [tripleScan, firstMarker, atMarker, Bool.not_false, Bool.true_and]
    by_cases hq : c = '"'
    · subst hq
      by_cases h2 : atTwo rest = true
      · simp [h2]
      · rw [ih hr] at *
        simp only [show atTwo rest = false by simpa using h2, decide_True,
          Bool.and_false, Bool.false_eq_true, if_false, if_true]
        cases hfm : firstMarker rest <;> simp [hfm]
    · simp only [show (decide (c = '"')) = false by simpa using hq,
        show (decide (c = '\\')) = false by simpa using hc,
        Bool.false_and, Bool.false_eq_true, if_false]
      rw [ih hr]
      cases hfm : firstMarker rest <;> simp [hfm]

/-- C5 counterexample: with `state.inTripleQuote` set, stepping the stream
engine on the line `\"""` does not clear the flag although the marker
`"""` occurs in the line (at index 1): the scan's backslash-escape
tracking skips the first quote, after which no unescaped marker start has
two quotes left.  This refutes both "clears the flag if and only if a
marker occurrence was found" and "no escape-sequence handling". -/
theorem triple_step_escape_counterexample :
    (firstMarker ("\\\"\"\"".toList)).isSome = true ∧
    streamToken ("\\\"\"\"".toList) 0 true false =
      (some .TripleQuoteString, 4, true) := by
  decide

/-- C5 amended: when `state.inTripleQuote` is set and the remainder of the
line contains no backslash, the stream step consumes up to and including
the first marker occurrence (or the whole remainder if none occurs),
clears the flag if and only if a marker was found, and always returns
`TripleQuoteString`.  (With backslashes present, the escape tracking can
skip a marker whose opening quote is preceded by an unescaped backslash,
as the counterexample shows.) -/
theorem stream_triple_step (line : List Char) (pos : Nat) (isTxt : Bool)
    (h : '\\' ∉ line.drop pos) :
    streamToken line pos true isTxt =
      (some .TripleQuoteString,
       (match firstMarker (line.drop pos) with
        | some i => pos + (i + 3)
        | none => pos + (line.drop pos).length),
       (firstMarker (line.drop pos)).isNone) := by
  simp only [streamToken, if_true]
  rw [tripleScan_no_backslash _ h]
  cases hfm : firstMarker (line.drop pos) <;> simp [hfm]

/-- Witness for `stream_triple_step` at line `ab"""cd`, cursor 0: the
marker is at index 2, so the step consumes `ab"""` (five characters) and
clears the flag. -/
theorem stream_triple_step_witness :
    '\\' ∉ (("ab\"\"\"cd".toList).drop 0) ∧
    streamToken ("ab\"\"\"cd".toList) 0 true false =
      (some .TripleQuoteString, 5, false) :=
  ⟨by decide,
   (stream_triple_step ("ab\"\"\"cd".toList) 0 false (by decide)).trans
     (by decide)⟩

/-- C6: whenever the stream engine's state is outside a triple quote, the
marker does not start at the cursor, no applicable rule matches there and
the cursor is not at end of line, the step consumes exactly one character
and returns the file-type-dependent fallback: `Default` for template
files, no style (`none`) for script files.  The step function is a total
Lean function over all inputs, so the tokenizer never raises. -/
theorem stream_fallback (line : List Char) (pos : Nat) (isTxt : Bool)
    (hpos : pos < line.length)
    (hm : atMarker (line.drop pos) = false)
    (hr : tryRules (streamRules isTxt) (line.drop pos) = none) :
    streamToken line pos false isTxt =
      ((if isTxt then some .Default else none), pos + 1, false) := by
  simp [streamToken, hm, hr, hpos]

/-- Witness for `stream_fallback`: on the script-file line `~` at cursor 0
nothing matches, one character is consumed and no style is returned. -/
theorem stream_fallback_witness :
    (0 < ("~".toList).length ∧ atMarker (("~".toList).drop 0) = false ∧
     tryRules (streamRules false) (("~".toList).drop 0) = none) ∧
    streamToken ("~".toList) 0 false false = (none, 1, false) :=
  ⟨⟨by decide, by decide, by decide⟩,
   (stream_fallback ("~".toList) 0 false (by decide) (by decide)
      (by decide)).trans (by decide)⟩

theorem batchRules_global : ∀ r ∈ batchRules, r.global = true := by
  intro r hr
  simp only [batchRules, List.mem_cons, List.not_mem_nil, or_false] at hr
  rcases hr with rfl | rfl | rfl | rfl | rfl | rfl | rfl | rfl | rfl <;> rfl

theorem applyRulesSt_fst_indep (isTxt : Bool) (line : List Char) :
    ∀ (rules : List Rule), (∀ r ∈ rules, r.global = true) →
    ∀ (lis lis' : List Nat) (p : Nat → Paint),
    (applyRulesSt isTxt line rules lis p).1 =
      (applyRulesSt isTxt line rules lis' p).1 := by
  intro rules
  induction rules with
  | nil => intro _ lis lis' p; rfl
  | cons r rs ih =>
    intro h lis lis' p
    have hg : r.global = true := h r (List.mem_cons_self ..)
    have hrs : ∀ x ∈ rs, x.global = true :=
      fun x hx => h x (List.mem_cons_of_mem _ hx)
    simp only [applyRulesSt]
    by_cases hd : (isTxt && r.isDslKeywordRule) = true
    · simp only [hd, if_true]
      exact ih hrs lis.tail lis'.tail p
    · simp only [show (isTxt && r.isDslKeywordRule) = false by simpa using hd,
        Bool.false_eq_true, if_false]
      have hscan : scanRuleSt r (lis.headD 0) line =
          scanRuleSt r (lis'.headD 0) line := by
        simp [scanRuleSt, hg]
      rw [hscan]
      exact ih hrs lis.tail lis'.tail _

theorem highlightLineSt_out_indep (line : List Char) (st isTxt : Bool)
    (lis lis' : List Nat) :
    (highlightLineSt line st isTxt lis).1 =
      (highlightLineSt line st isTxt lis').1 := by
  simp only [highlightLineSt]
  rw [applyRulesSt_fst_indep isTxt line batchRules batchRules_global lis lis']

theorem highlightLinesSt_indep (isTxt : Bool) :
    ∀ (ls : List (List Char)) (st : Bool) (lis lis' : List Nat),
    highlightLinesSt isTxt ls st lis = highlightLinesSt isTxt ls st lis' := by
  intro ls
  induction ls with
  | nil => intro _ _ _; rfl
  | cons l ls ih =>
    intro st lis lis'
    have h1 := highlightLineSt_out_indep l st isTxt lis lis'
    simp only [highlightLinesSt]
    rw [congrArg Prod.fst h1, congrArg Prod.snd h1]
    exact congrArg _ (ih _ _ _)

/-- C7: for every full text and file-type flag, the batch tokenizer's
output depends only on the input text, the fixed rule table, the carried
boolean state and the flag — it is independent of the incoming iteration
cursors (`lastIndex`) of the stateful global regex objects, because every
rule of `highlightingRules` is global and its cursor is reset to 0 before
each line scan.  In particular running the tokenizer twice with identical
inputs yields identical output, whatever cursor state the first run left
behind. -/
theorem batch_regex_state_independent (fullText : List Char) (isTxt : Bool)
    (lis lis' : List Nat) :
    generateHighlightedTokensSt fullText isTxt lis =
      generateHighlightedTokensSt fullText isTxt lis' :=
  highlightLinesSt_indep isTxt (fullText.splitOn '\n') false lis lis'

theorem commentMatch_pos (pw : Bool) (s : List Char) (res : MatchRes)
    (h : commentMatch pw s = some res) : 1 ≤ res.len := by
  unfold commentMatch at h
  split at h
  · injection h with h; subst h; dsimp only; omega
  · exact Option.noConfusion h

theorem stringMatch_pos (pw : Bool) (s : List Char) (res : MatchRes)
    (h : stringMatch pw s = some res) : 1 ≤ res.len := by
  unfold stringMatch at h
  split at h
  all_goals first
  | exact Option.noConfusion h
  | (rcases Option.map_eq_some'.mp h with ⟨j, _, hres⟩; subst hres;
     dsimp only; omega)

theorem keywordMatchWith_pos (kws : List (List Char)) (pw : Bool)
    (s : List Char) (res : MatchRes)
    (h : keywordMatchWith kws pw s = some res) : 1 ≤ res.len := by
  unfold keywordMatchWith at h
  dsimp only at h
  split at h
  · exact Option.noConfusion h
  · split at h
    · injection h with h
      subst h
      rename_i hguard
      have := (Bool.and_eq_true _ _).mp hguard
      dsimp only
      simpa using this.1
    · exact Option.noConfusion h

theorem specialTagMatch_pos (pw : Bool) (s : List Char) (res : MatchRes)
    (h : specialTagMatch pw s = some res) : 1 ≤ res.len := by
  unfold specialTagMatch at h
  dsimp only at h
  repeat' split at h
  all_goals first
  | exact Option.noConfusion h
  | (rcases Option.map_eq_some'.mp h with ⟨j, _, hres⟩; subst hres;
     dsimp only; omega)

theorem numberMatch_pos (pw : Bool) (s : List Char) (res : MatchRes)
    (h : numberMatch pw s = some res) : 1 ≤ res.len := by
  unfold numberMatch at h
  dsimp only at h
  repeat' split at h
  all_goals first
  | exact Option.noConfusion h
  | (injection h with h; subst h; dsimp only; omega)

theorem placeholderMatch_pos (pw : Bool) (s : List Char) (res : MatchRes)
    (h : placeholderMatch pw s = some res) : 1 ≤ res.len := by
  unfold placeholderMatch at h
  split at h
  all_goals first
  | exact Option.noConfusion h
  | (rcases Option.map_eq_some'.mp h with ⟨r, _, hres⟩; subst hres;
     dsimp only; omega)

theorem reqQuote_fst (l : List Char) (p : Nat × List Char)
    (h : reqQuote l = some p) : p.1 = 1 := by
  unfold reqQuote at h
  repeat' split at h
  all_goals first
  | exact Option.noConfusion h
  | (injection h with h; subst h; rfl)

theorem loadTagMatch_pos (pw : Bool) (s : List Char) (res : MatchRes)
    (h : loadTagMatch pw s = some res) : 1 ≤ res.len := by
  unfold loadTagMatch at h
  split at h
  · exact Option.noConfusion h
  · simp only [Option.bind_eq_some, Option.map_eq_some'] at h
    obtain ⟨p1, _, p2, _, p3, _, p4, _, p5, _, p6, _, p7, hp7, p8, _, p9,
      hp9, hres⟩ := h
    subst hres
    have h7 := reqQuote_fst _ _ hp7
    dsimp only
    omega

theorem sectionMatch_pos (pw : Bool) (s : List Char) (res : MatchRes)
    (h : sectionMatch pw s = some res) : 1 ≤ res.len := by
  unfold sectionMatch at h
  dsimp only at h
  repeat' split at h
  all_goals first
  | exact Option.noConfusion h
  | (injection h with h; subst h; dsimp only; omega)

theorem insertMatchWith_pos (cls : Char → Bool) (pw : Bool) (s : List Char)
    (res : MatchRes) (h : insertMatchWith cls pw s = some res) :
    1 ≤ res.len := by
  unfold insertMatchWith at h
  dsimp only at h
  repeat' split at h
  all_goals first
  | exact Option.noConfusion h
  | (injection h with h; subst h; dsimp only; omega)

theorem streamRules_matchAt_pos (isTxt : Bool) :
    ∀ r ∈ streamRules isTxt, ∀ (s : List Char) (res : MatchRes),
      r.matchAt false s = some res → 1 ≤ res.len := by
  intro r hr
  cases isTxt <;>
    simp only [streamRules, if_true, if_false, Bool.false_eq_true,
      List.cons_append, List.nil_append, List.mem_cons,
      List.not_mem_nil, or_false] at hr
  · rcases hr with rfl | rfl | rfl | rfl | rfl | rfl | rfl | rfl | rfl
    · exact commentMatch_pos false
    · exact stringMatch_pos false
    · exact loadTagMatch_pos false
    · exact keywordMatchWith_pos streamKeywords false
    · exact sectionMatch_pos false
    · exact insertMatchWith_pos isWordChar false
    · exact specialTagMatch_pos false
    · exact placeholderMatch_pos false
    · exact numberMatch_pos false
  · rcases hr with rfl | rfl | rfl | rfl | rfl | rfl | rfl | rfl
    · exact commentMatch_pos false
    · exact stringMatch_pos false
    · exact keywordMatchWith_pos ["LOAD".toList] false
    · exact sectionMatch_pos false
    · exact insertMatchWith_pos isWordChar false
    · exact specialTagMatch_pos false
    · exact placeholderMatch_pos false
    · exact numberMatch_pos false

theorem tryRules_pos :
    ∀ (rs : List StreamRule) (s : List Char) (k : StyleKey) (n : Nat),
      (∀ r ∈ rs, ∀ (s' : List Char) (res : MatchRes),
        r.matchAt false s' = some res → 1 ≤ res.len) →
      tryRules rs s = some (k, n) → 1 ≤ n := by
  intro rs
  induction rs with
  | nil => intro s k n _ h; exact absurd h (by simp [tryRules])
  | cons r rest ih =>
    intro s k n hall h
    simp only [tryRules] at h
    cases hm : r.matchAt false s with
    | some res =>
      rw [hm] at h
      cases h
      exact hall r (List.mem_cons_self ..) s res hm
    | none =>
      rw [hm] at h
      exact ih s k n (fun x hx => hall x (List.mem_cons_of_mem _ hx)) h

theorem tripleScan_pos :
    ∀ (l : List Char) (esc : Bool), l ≠ [] → 1 ≤ (tripleScan l esc).1 := by
  intro l esc h
  cases l with
  | nil => exact absurd rfl h
  | cons c rest =>
    simp only [tripleScan]
    split
    · split
      · simp
      · simp
    · simp

/-- C10: every stream-engine step taken with the cursor strictly inside
the line advances the cursor by at least one character — the
in-triple-quote scan, the marker match, every rule match and the
one-character fallback all consume at least one character — so a line
scan driven by the host editor terminates. -/
theorem stream_step_advances (line : List Char) (pos : Nat) (st isTxt : Bool)
    (h : pos < line.length) :
    pos < (streamToken line pos st isTxt).2.1 := by
  have hdrop : line.drop pos ≠ [] := by
    intro e
    have := List.drop_eq_nil_iff.mp e
    omega
  cases st with
  | true =>
    simp only [streamToken, if_true]
    have := tripleScan_pos (line.drop pos) false hdrop
    omega
  | false =>
    simp only [streamToken, Bool.false_eq_true, if_false]
    by_cases hm : atMarker (line.drop pos) = true
    · simp [hm]
    · simp only [show atMarker (line.drop pos) = false by simpa using hm,
        Bool.false_eq_true, if_false]
      cases htr : tryRules (streamRules isTxt) (line.drop pos) with
      | some kn =>
        have := tryRules_pos (streamRules isTxt) (line.drop pos) kn.1 kn.2
          (streamRules_matchAt_pos isTxt) (by simpa using htr)
        simp only [htr]
        omega
      | none => simp [htr, h]

/-- Witness for `stream_step_advances` at the one-character script line
`a`, cursor 0. -/
theorem stream_step_advances_witness :
    0 < ("a".toList).length ∧
    0 < (streamToken ("a".toList) 0 false false).2.1 :=
  ⟨by decide, stream_step_advances ("a".toList) 0 false false (by decide)⟩

end PromptEditor
